import Mathlib

/-!
Verification of the batch image-to-brush-asset-library add-on
(`batch_image_asset_library_modal_copy.py`).

The development shallowly embeds the add-on's pure logic:

* `make_unique_name` — the collision-avoiding name allocator;
* `IMAGE_EXTENSIONS` / `eligibleFile` — the extension allow-list filter
  applied to directory entries;
* `execute` — the operator's pre-flight validation and job-state setup;
* `modal` — the timer-driven handler that converts one file per tick and
  performs the terminal aggregate save;
* `runModal` — iterating `modal` over a sequence of host events, stopping
  when the handler returns its terminal result (the host stops delivering
  events to a finished modal operator).

External host services (filesystem tests, directory listing, Blender's
image/texture/brush creation, and the final save) are modelled as an
explicit environment `Env`; every call the Python code makes into the host
is recorded in the returned effect trace so that call ordering and call
counts can be stated.
-/

/-- Character for a single decimal digit `d < 10`, as produced by Python
string formatting (code point 48 + d). -/
def decDigit (d : Nat) : Char :=
  Char.ofNat (48 + d)

/-- Fuel-driven decimal rendering of a natural number, most significant
digit first.  With fuel at least `n + 1` this is the standard decimal
numeral of `n`, i.e. exactly what the Python f-string `f"{i}"` produces. -/
def toDecAux : Nat → Nat → List Char
  | 0, _ => []
  | _ + 1, n =>
    if n < 10 then [decDigit n]
    else toDecAux n (n / 10) ++ [decDigit (n % 10)]

/-- Decimal rendering of a natural number, as Python's `str(i)`. -/
def natToDec (n : Nat) : String :=
  String.mk (toDecAux (n + 1) n)

/-- Reads a decimal digit list back into the number it denotes; used to
show `toDecAux` is injective. -/
def decVal (l : List Char) : Nat :=
  l.foldl (fun acc c => 10 * acc + (c.toNat - 48)) 0

/-- Candidate name tried at iteration `k` of the `make_unique_name` loop
in the source: the loop tests `base_name` first, then `base_name_1`,
`base_name_2`, and so on (the Python f-string `f"{base_name}_{i}"`). -/
def candidate (base : String) (k : Nat) : String :=
  if k = 0 then base else base ++ "_" ++ natToDec k

/-- Loop body of `make_unique_name`, made structural on explicit fuel:
`mkUniqueAux base existing k fuel` keeps testing `candidate base k`,
`candidate base (k+1)`, … against `existing` for up to `fuel` iterations
and returns the first candidate not present.  `make_unique_name` supplies
fuel `existing.length + 1`, which is proved sufficient below, so the fuel
variant computes exactly what the unbounded Python `while` loop computes. -/
def mkUniqueAux (base : String) (existing : List String) : Nat → Nat → String
  | k, 0 => candidate base k
  | k, fuel + 1 =>
    if candidate base k ∈ existing then mkUniqueAux base existing (k + 1) fuel
    else candidate base k

/-- Embedding of `make_unique_name(base_name, existing_names)` from the
source: returns `base_name` if it is not in `existing_names`, else the
first `base_name_<k>` (k = 1, 2, …) that is not. -/
def make_unique_name (base : String) (existing : List String) : String :=
  mkUniqueAux base existing 0 (existing.length + 1)

/-- Python's `str.lower()` restricted to the ASCII range, which is all the
source ever lowers (filenames' extension tails and the literal
`'.blend'`). -/
def pyLower (s : String) : String :=
  String.mk (s.data.map Char.toLower)

/-- Python's `str.endswith(suffix)`. -/
def pyEndsWith (s suffix : String) : Bool :=
  suffix.data.isSuffixOf s.data

/-- Python's `str.startswith(s)`. -/
def pyStartsWith (s t : String) : Bool :=
  t.data.isPrefixOf s.data

/-- Python's `os.path.join(a, b)` for POSIX paths (two arguments). -/
def pathJoin (a b : String) : String :=
  if pyStartsWith b "/" then b
  else if a = "" ∨ pyEndsWith a "/" then a ++ b
  else a ++ "/" ++ b

/-- Python's `os.path.dirname(p)` for POSIX paths: the part before the last
slash, with trailing slashes stripped unless the head is all slashes. -/
def dirname (p : String) : String :=
  let cs := p.data
  let i := match cs.reverse.findIdx? (fun c => c == '/') with
    | none => 0
    | some r => cs.length - r
  let head := cs.take i
  if head ≠ [] ∧ ¬ head.all (fun c => c == '/') then
    String.mk ((head.reverse.dropWhile (fun c => c == '/')).reverse)
  else String.mk head

/-- Root part of Python's `os.path.splitext(name)` for a bare directory
entry (names returned by `os.listdir` contain no path separator): the text
before the last dot, except that a leading run of dots never starts an
extension, so e.g. the stem of `".png"` is `".png"` itself while the stem
of `"a.png"` is `"a"`. -/
def splitextStem (p : String) : String :=
  let cs := p.data
  match cs.reverse.findIdx? (fun c => c == '.') with
  | none => p
  | some r =>
    let d := cs.length - 1 - r
    if (cs.take d).any (fun c => c != '.') then String.mk (cs.take d) else p

/-- Allow-list of image filename suffixes from the source
(`IMAGE_EXTENSIONS`). -/
def IMAGE_EXTENSIONS : List String :=
  [".png", ".jpg", ".jpeg", ".tif", ".tiff", ".bmp", ".psd", ".exr", ".hdr",
   ".tga", ".gif", ".dds", ".jp2", ".webp"]

/-- Eligibility test applied to each directory entry in `execute`:
`f.lower().endswith(IMAGE_EXTENSIONS)` — Python's `endswith` with a tuple
argument succeeds when any listed suffix matches. -/
def eligibleFile (f : String) : Bool :=
  IMAGE_EXTENSIONS.any (fun ext => pyEndsWith (pyLower f) ext)

/-- Normalization applied to the output path right before the save:
`if not blend_path.lower().endswith('.blend'): blend_path += '.blend'`. -/
def normalizeBlendPath (p : String) : String :=
  if pyEndsWith (pyLower p) ".blend" then p else p ++ ".blend"

/-- Host environment the operator runs against.  `loadResult` collapses the
whole fallible Blender interaction of one item's `try` block (image load,
texture/brush creation, asset marking) into one outcome keyed by the file's
full path, since every exception there lands in the same `except` handler;
the error value is the exception text `str(e)`.  `saveResult` likewise
models `bpy.ops.wm.save_mainfile` for a given target path. -/
structure Env where
  isDir : String → Bool
  listdir : String → List String
  brushNames : List String
  loadResult : String → Except String Unit
  saveResult : String → Except String Unit

/-- The two operator properties collected by the dialog. -/
structure OpProps where
  image_folder : String
  output_blend : String
deriving DecidableEq

/-- Mutable per-job fields held on the operator instance (`self._step`,
`self._image_files`, `self._num_files`, `self._created_brushes`,
`self._existing_brush_names`, `self._done`, `self._failures`).  The name
set is modelled as a list used only through membership and insertion. -/
structure JobState where
  step : Nat
  image_files : List String
  num_files : Nat
  created_brushes : List String
  existing_brush_names : List String
  done : Bool
  failures : List String
deriving DecidableEq

/-- One `self.report({LEVEL}, msg)` call. -/
inductive Report
  | info (msg : String)
  | warning (msg : String)
  | error (msg : String)
deriving DecidableEq

/-- Return value of the `modal` handler. -/
inductive ModalRet
  | PASS_THROUGH
  | FINISHED
deriving DecidableEq

/-- Return value of `execute`. -/
inductive ExecRet
  | CANCELLED
  | RUNNING_MODAL
deriving DecidableEq

/-- Host-visible effects of one or more handler calls, in call order per
kind: report calls, `wm.progress_update` arguments, full paths passed to
`bpy.data.images.load`, paths passed to `bpy.ops.wm.save_mainfile`, and
whether `wm.progress_end` / `wm.event_timer_remove` ran. -/
structure Trace where
  reports : List Report
  progressUpdates : List Nat
  loadCalls : List String
  saveCalls : List String
  progressEnded : Bool
  timerRemoved : Bool
deriving DecidableEq

def Trace.empty : Trace :=
  ⟨[], [], [], [], false, false⟩

def Trace.append (t u : Trace) : Trace :=
  ⟨t.reports ++ u.reports, t.progressUpdates ++ u.progressUpdates,
   t.loadCalls ++ u.loadCalls, t.saveCalls ++ u.saveCalls,
   t.progressEnded || u.progressEnded, t.timerRemoved || u.timerRemoved⟩

/-- Result of `execute`: its return status, the reports it issued, whether
the progress UI was begun and the timer added, and the job state it left on
the operator (`none` when it cancelled before initializing one). -/
structure ExecOutcome where
  ret : ExecRet
  reports : List Report
  progressBegun : Bool
  timerAdded : Bool
  st : Option JobState

/-- Embedding of `BATCH_OT_image_to_blend_library.execute`: pre-flight
validation of both paths, the eligibility scan, and job-state setup. -/
def execute (env : Env) (props : OpProps) : ExecOutcome :=
  if env.isDir props.image_folder = false then
    { ret := ExecRet.CANCELLED, reports := [Report.error "Invalid image folder path."],
      progressBegun := false, timerAdded := false, st := none }
  else
    let output_dir := dirname props.output_blend
    if env.isDir output_dir = false then
      { ret := ExecRet.CANCELLED, reports := [Report.error "Invalid output blend folder."],
        progressBegun := false, timerAdded := false, st := none }
    else
      let image_files := (env.listdir props.image_folder).filter eligibleFile
      if image_files.isEmpty then
        { ret := ExecRet.CANCELLED,
          reports := [Report.error "No image files found in the selected folder."],
          progressBegun := false, timerAdded := false, st := none }
      else
        { ret := ExecRet.RUNNING_MODAL, reports := [],
          progressBegun := true, timerAdded := true,
          st := some { step := 0, image_files := image_files,
                       num_files := image_files.length, created_brushes := [],
                       existing_brush_names := env.brushNames,
                       done := false, failures := [] } }

/-- A window-manager event, identified by its kind string (`event.type`). -/
structure Event where
  ty : String
deriving DecidableEq

/-- The timer event the operator registered for. -/
def timerEvent : Event :=
  ⟨"TIMER"⟩

/-- Result of one `modal` call: the updated job state, the returned status
set, and the host effects of the call. -/
structure ModalOut where
  st : JobState
  ret : ModalRet
  tr : Trace
deriving DecidableEq

/-- Embedding of `BATCH_OT_image_to_blend_library.modal`: on a `'TIMER'`
event either converts the file at the cursor (advancing the cursor whether
or not its `try` block failed) or, once the cursor has exhausted the files,
normalizes the output path, saves once, reports, and finishes; every other
event kind just passes through. -/
def modal (env : Env) (props : OpProps) (st : JobState) (event : Event) : ModalOut :=
  if event.ty = "TIMER" then
    if st.step < st.num_files then
      let img_file := st.image_files.getD st.step ""
      let full_path := pathJoin props.image_folder img_file
      match env.loadResult full_path with
      | Except.ok _ =>
        let imageName := splitextStem img_file
        let brush_name := make_unique_name (imageName ++ "_Brush") st.existing_brush_names
        { st := { st with
            created_brushes := st.created_brushes ++ [brush_name],
            existing_brush_names := st.existing_brush_names ++ [brush_name],
            step := st.step + 1 },
          ret := ModalRet.PASS_THROUGH,
          tr := { Trace.empty with
                    loadCalls := [full_path],
                    progressUpdates := [st.step + 1] } }
      | Except.error e =>
        { st := { st with failures := st.failures ++ [img_file], step := st.step + 1 },
          ret := ModalRet.PASS_THROUGH,
          tr := { Trace.empty with
                    loadCalls := [full_path],
                    reports := [Report.warning ("Failed to load " ++ img_file ++ ": " ++ e)],
                    progressUpdates := [st.step + 1] } }
    else
      let blend_path := normalizeBlendPath props.output_blend
      match env.saveResult blend_path with
      | Except.ok _ =>
        let msg := "Saved " ++ natToDec st.created_brushes.length ++
          " brush assets in: " ++ blend_path ++ "\nOpen in Asset Browser to set previews."
        let msg := if st.failures.isEmpty then msg
          else msg ++ "\nSome files failed: " ++ String.intercalate ", " st.failures
        { st := { st with done := true }, ret := ModalRet.FINISHED,
          tr := { Trace.empty with
                    saveCalls := [blend_path],
                    reports := [Report.info msg],
                    progressEnded := true, timerRemoved := true } }
      | Except.error e =>
        { st := { st with done := true }, ret := ModalRet.FINISHED,
          tr := { Trace.empty with
                    saveCalls := [blend_path],
                    reports := [Report.error ("Failed to save blend: " ++ e)],
                    progressEnded := true, timerRemoved := true } }
  else
    { st := st, ret := ModalRet.PASS_THROUGH, tr := Trace.empty }

/-- Drives `modal` over a sequence of host events.  When a call returns
`FINISHED` the host tears the modal operator down, so later events are no
longer delivered to it; effects of the performed calls are accumulated in
order. -/
def runModal (env : Env) (props : OpProps) : JobState → List Event → JobState × Trace
  | st, [] => (st, Trace.empty)
  | st, e :: es =>
    let out := modal env props st e
    if out.ret = ModalRet.FINISHED then (out.st, out.tr)
    else
      let rest := runModal env props out.st es
      (rest.1, out.tr.append rest.2)

/-- Convenience predicate: does the host conversion of directory entry `f`
(at its full path inside the job's image folder) succeed? -/
def okFile (env : Env) (props : OpProps) (f : String) : Bool :=
  match env.loadResult (pathJoin props.image_folder f) with
  | Except.ok _ => true
  | Except.error _ => false

/-- The warning report the handler emits for entry `f`, if its conversion
fails. -/
def warnOf (env : Env) (props : OpProps) (f : String) : Option Report :=
  match env.loadResult (pathJoin props.image_folder f) with
  | Except.ok _ => none
  | Except.error e => some (Report.warning ("Failed to load " ++ f ++ ": " ++ e))

/-- State change performed by one item-processing tick on entry `f`:
append a brush record and reserve its name on success, append the filename
to the failure list on failure, and advance the cursor by one either way. -/
def processFile (env : Env) (props : OpProps) (st : JobState) (f : String) : JobState :=
  match env.loadResult (pathJoin props.image_folder f) with
  | Except.ok _ =>
    let brush_name := make_unique_name (splitextStem f ++ "_Brush") st.existing_brush_names
    { st with created_brushes := st.created_brushes ++ [brush_name],
              existing_brush_names := st.existing_brush_names ++ [brush_name],
              step := st.step + 1 }
  | Except.error _ =>
    { st with failures := st.failures ++ [f], step := st.step + 1 }

/-- Host effects of one item-processing tick on entry `f` at cursor
position `step`. -/
def itemTrace (env : Env) (props : OpProps) (f : String) (step : Nat) : Trace :=
  { Trace.empty with
      loadCalls := [pathJoin props.image_folder f],
      progressUpdates := [step + 1],
      reports := (warnOf env props f).toList }

/-- Host effects of the terminal saving tick from state `st`. -/
def saveTrace (env : Env) (props : OpProps) (st : JobState) : Trace :=
  let blend_path := normalizeBlendPath props.output_blend
  match env.saveResult blend_path with
  | Except.ok _ =>
    let msg := "Saved " ++ natToDec st.created_brushes.length ++
      " brush assets in: " ++ blend_path ++ "\nOpen in Asset Browser to set previews."
    let msg := if st.failures.isEmpty then msg
      else msg ++ "\nSome files failed: " ++ String.intercalate ", " st.failures
    { Trace.empty with
        saveCalls := [blend_path],
        reports := [Report.info msg],
        progressEnded := true, timerRemoved := true }
  | Except.error e =>
    { Trace.empty with
        saveCalls := [blend_path],
        reports := [Report.error ("Failed to save blend: " ++ e)],
        progressEnded := true, timerRemoved := true }

/-- Conversion of the whole remaining work list by successive
item-processing ticks. -/
def runItems (env : Env) (props : OpProps) (st : JobState) (fs : List String) : JobState :=
  fs.foldl (processFile env props) st

theorem decVal_append_digit (l : List Char) (c : Char) :
    decVal (l ++ [c]) = 10 * decVal l + (c.toNat - 48) := by
  simp [decVal, List.foldl_append]

theorem decDigit_toNat (d : Nat) (hd : d < 10) : (decDigit d).toNat - 48 = d := by
  interval_cases d <;> decide

theorem toDecAux_decVal : ∀ n fuel, n < fuel → decVal (toDecAux fuel n) = n := by
  intro n
  induction n using Nat.strong_induction_on with
  | _ n ih =>
    intro fuel h
    match fuel with
    | 0 => omega
    | f + 1 =>
      by_cases h10 : n < 10
      · simp only [toDecAux, if_pos h10, decVal, List.foldl_cons, List.foldl_nil]
        have := decDigit_toNat n h10
        omega
      · have hn0 : 0 < n := by omega
        have hdiv : n / 10 < n := Nat.div_lt_self hn0 (by omega)
        -- the recursive call happens with fuel `n`, which bounds `n / 10`
        simp only [toDecAux, if_neg h10]
        rw [decVal_append_digit, ih (n / 10) hdiv n hdiv]
        have := decDigit_toNat (n % 10) (Nat.mod_lt n (by omega))
        omega

theorem toDecAux_ne_nil (f n : Nat) : toDecAux (f + 1) n ≠ [] := by
  by_cases h10 : n < 10
  · simp [toDecAux, if_pos h10]
  · simp [toDecAux, if_neg h10]

theorem natToDec_injective : Function.Injective natToDec := by
  intro a b hab
  have hdata : toDecAux (a + 1) a = toDecAux (b + 1) b :=
    congrArg String.data hab
  have ha := toDecAux_decVal a (a + 1) (Nat.lt_succ_self a)
  have hb := toDecAux_decVal b (b + 1) (Nat.lt_succ_self b)
  rw [hdata] at ha
  omega

theorem candidate_injective (base : String) : Function.Injective (candidate base) := by
  intro i j hij
  have hlen : ∀ m : Nat, m ≠ 0 →
      (candidate base m).data = base.data ++ '_' :: (natToDec m).data := by
    intro m hm
    simp [candidate, hm, String.data_append]
  match i, j with
  | 0, 0 => rfl
  | 0, j + 1 =>
    exfalso
    have h0 : (candidate base 0).data = base.data := by simp [candidate]
    have h1 := hlen (j + 1) (Nat.succ_ne_zero j)
    have := congrArg String.data hij
    rw [h0, h1] at this
    have := congrArg List.length this
    simp at this
  | i + 1, 0 =>
    exfalso
    have h0 : (candidate base 0).data = base.data := by simp [candidate]
    have h1 := hlen (i + 1) (Nat.succ_ne_zero i)
    have := congrArg String.data hij
    rw [h0, h1] at this
    have := congrArg List.length this
    simp at this
  | i + 1, j + 1 =>
    have h1 := hlen (i + 1) (Nat.succ_ne_zero i)
    have h2 := hlen (j + 1) (Nat.succ_ne_zero j)
    have hd := congrArg String.data hij
    rw [h1, h2] at hd
    have hd' : (natToDec (i + 1)).data = (natToDec (j + 1)).data :=
      List.cons_injective (List.append_cancel_left hd)
    exact natToDec_injective (String.ext hd')

theorem mkUniqueAux_spec (base : String) (existing : List String) :
    ∀ fuel k, (∃ j, k ≤ j ∧ j ≤ k + fuel ∧ candidate base j ∉ existing) →
      ∃ j, k ≤ j ∧ mkUniqueAux base existing k fuel = candidate base j ∧
        candidate base j ∉ existing ∧
        ∀ m, k ≤ m → m < j → candidate base m ∈ existing := by
  intro fuel
  induction fuel with
  | zero =>
    intro k ⟨j, hkj, hjk, hj⟩
    have : j = k := by omega
    subst this
    exact ⟨j, le_refl j, rfl, hj, fun m h1 h2 => absurd (lt_of_le_of_lt h1 h2) (lt_irrefl j)⟩
  | succ f ih =>
    intro k ⟨j, hkj, hjk, hj⟩
    by_cases hmem : candidate base k ∈ existing
    · have hjne : j ≠ k := fun h => hj (h ▸ hmem)
      obtain ⟨j', h1, h2, h3, h4⟩ := ih (k + 1) ⟨j, by omega, by omega, hj⟩
      refine ⟨j', by omega, ?_, h3, ?_⟩
      · simpa [mkUniqueAux, hmem] using h2
      · intro m hm1 hm2
        rcases Nat.eq_or_lt_of_le hm1 with h | h
        · exact h ▸ hmem
        · exact h4 m h hm2
    · exact ⟨k, le_refl k, by simp [mkUniqueAux, hmem], hmem,
        fun m h1 h2 => absurd (lt_of_le_of_lt h1 h2) (lt_irrefl k)⟩

/-- Pigeonhole: among the `existing.length + 1` pairwise-distinct candidates
`candidate base 0 … candidate base existing.length`, at least one is not in
`existing`; this is why the source's unbounded loop always terminates. -/
theorem exists_free_candidate (base : String) (existing : List String) :
    ∃ j, j ≤ existing.length ∧ candidate base j ∉ existing := by
  by_contra hcon
  push_neg at hcon
  have hsub : (Finset.range (existing.length + 1)).image (candidate base) ⊆
      existing.toFinset := by
    intro x hx
    obtain ⟨j, hj, rfl⟩ := Finset.mem_image.mp hx
    exact List.mem_toFinset.mpr (hcon j (by simpa using Nat.lt_succ_iff.mp (Finset.mem_range.mp hj)))
  have hcard : existing.length + 1 ≤ existing.toFinset.card := by
    calc existing.length + 1
        = (Finset.range (existing.length + 1)).card := (Finset.card_range _).symm
      _ = ((Finset.range (existing.length + 1)).image (candidate base)).card :=
          (Finset.card_image_of_injective _ (candidate_injective base)).symm
      _ ≤ existing.toFinset.card := Finset.card_le_card hsub
  have := existing.toFinset_card_le
  omega

theorem make_unique_name_eq_first_free (base : String) (existing : List String) :
    ∃ j, make_unique_name base existing = candidate base j ∧
      candidate base j ∉ existing ∧
      ∀ m, m < j → candidate base m ∈ existing := by
  obtain ⟨j0, hj0, hfree⟩ := exists_free_candidate base existing
  obtain ⟨j, _, h2, h3, h4⟩ := mkUniqueAux_spec base existing (existing.length + 1) 0
    ⟨j0, Nat.zero_le _, by omega, hfree⟩
  exact ⟨j, h2, h3, fun m hm => h4 m (Nat.zero_le m) hm⟩

theorem make_unique_name_not_mem (base : String) (existing : List String) :
    make_unique_name base existing ∉ existing := by
  obtain ⟨j, h1, h2, _⟩ := make_unique_name_eq_first_free base existing
  exact h1 ▸ h2

theorem modal_not_timer (env : Env) (props : OpProps) (st : JobState) (e : Event)
    (h : ¬ e.ty = "TIMER") :
    modal env props st e = ⟨st, ModalRet.PASS_THROUGH, Trace.empty⟩ := by
  unfold modal
  rw [if_neg h]

theorem modal_timer_item (env : Env) (props : OpProps) (st : JobState) (e : Event)
    (ht : e.ty = "TIMER") (h : st.step < st.num_files) :
    modal env props st e =
      ⟨processFile env props st (st.image_files.getD st.step ""),
       ModalRet.PASS_THROUGH,
       itemTrace env props (st.image_files.getD st.step "") st.step⟩ := by
  simp only [modal, if_pos ht, if_pos h]
  rcases hl : env.loadResult (pathJoin props.image_folder (st.image_files.getD st.step ""))
    with e2 | u
  all_goals simp only [List.getD_eq_getElem?_getD] at hl
  all_goals simp [hl, processFile, itemTrace, warnOf, Trace.empty]

theorem modal_timer_save (env : Env) (props : OpProps) (st : JobState) (e : Event)
    (ht : e.ty = "TIMER") (h : ¬ st.step < st.num_files) :
    modal env props st e =
      ⟨{ st with done := true }, ModalRet.FINISHED, saveTrace env props st⟩ := by
  simp only [modal, if_pos ht, if_neg h]
  rcases hs : env.saveResult (normalizeBlendPath props.output_blend) with e2 | u <;>
    simp [hs, saveTrace, Trace.empty]

theorem processFile_fields (env : Env) (props : OpProps) (st : JobState) (f : String) :
    (processFile env props st f).step = st.step + 1 ∧
    (processFile env props st f).image_files = st.image_files ∧
    (processFile env props st f).num_files = st.num_files ∧
    (processFile env props st f).done = st.done ∧
    (processFile env props st f).created_brushes.length =
      st.created_brushes.length + (if okFile env props f then 1 else 0) ∧
    (processFile env props st f).failures =
      st.failures ++ (if okFile env props f then [] else [f]) := by
  unfold processFile okFile
  rcases h : env.loadResult (pathJoin props.image_folder f) with e | u
  all_goals simp [h]

theorem runItems_fields (env : Env) (props : OpProps) : ∀ (fs : List String) (st : JobState),
    (runItems env props st fs).step = st.step + fs.length ∧
    (runItems env props st fs).image_files = st.image_files ∧
    (runItems env props st fs).num_files = st.num_files ∧
    (runItems env props st fs).done = st.done ∧
    (runItems env props st fs).created_brushes.length =
      st.created_brushes.length + (fs.filter (okFile env props)).length ∧
    (runItems env props st fs).failures =
      st.failures ++ fs.filter (fun f => ! okFile env props f) := by
  intro fs
  induction fs with
  | nil => intro st; simp [runItems]
  | cons f t ih =>
    intro st
    obtain ⟨h1, h2, h3, h4, h5, h6⟩ := processFile_fields env props st f
    obtain ⟨g1, g2, g3, g4, g5, g6⟩ := ih (processFile env props st f)
    have hrw : runItems env props st (f :: t) =
        runItems env props (processFile env props st f) t := rfl
    rw [hrw]
    refine ⟨?_, g2.trans h2, g3.trans h3, g4.trans h4, ?_, ?_⟩
    · rw [g1, h1]; simp; omega
    · rw [g5, h5]
      by_cases hok : okFile env props f
      all_goals simp [hok, List.filter_cons]
      all_goals omega
    · rw [g6, h6]
      by_cases hok : okFile env props f <;> simp [hok, List.filter_cons]

theorem modal_facts (env : Env) (props : OpProps) (st : JobState) (e : Event) :
    st.step ≤ (modal env props st e).st.step ∧
    (modal env props st e).st.num_files = st.num_files ∧
    (modal env props st e).st.image_files = st.image_files ∧
    (st.step ≤ st.num_files → (modal env props st e).st.step ≤ st.num_files) ∧
    ((modal env props st e).ret = ModalRet.PASS_THROUGH →
      (modal env props st e).tr.saveCalls = []) ∧
    ((modal env props st e).ret = ModalRet.FINISHED →
      (modal env props st e).st.step = st.step ∧ ¬ st.step < st.num_files ∧
      (modal env props st e).tr.saveCalls = [normalizeBlendPath props.output_blend]) := by
  by_cases ht : e.ty = "TIMER"
  · by_cases h : st.step < st.num_files
    · rw [modal_timer_item env props st e ht h]
      obtain ⟨h1, h2, h3, _, _, _⟩ :=
        processFile_fields env props st (st.image_files.getD st.step "")
      dsimp only
      refine ⟨by omega, h3, h2, fun _ => by omega, fun _ => by simp [itemTrace, Trace.empty],
        fun hc => ?_⟩
      simp at hc
    · rw [modal_timer_save env props st e ht h]
      dsimp only
      refine ⟨le_refl _, rfl, rfl, fun hle => hle, fun hc => ?_, fun _ => ?_⟩
      · simp at hc
      · refine ⟨rfl, h, ?_⟩
        rcases hs : env.saveResult (normalizeBlendPath props.output_blend) with e2 | u <;>
          simp [saveTrace, hs]
  · rw [modal_not_timer env props st e ht]
    exact ⟨le_refl _, rfl, rfl, fun hle => hle, fun _ => rfl, fun hc => by simp at hc⟩

theorem runModal_facts (env : Env) (props : OpProps) : ∀ (evs : List Event) (st : JobState),
    st.step ≤ (runModal env props st evs).1.step ∧
    (runModal env props st evs).1.num_files = st.num_files ∧
    (runModal env props st evs).1.image_files = st.image_files ∧
    (st.step ≤ st.num_files → (runModal env props st evs).1.step ≤ st.num_files) ∧
    (runModal env props st evs).2.saveCalls.length ≤ 1 ∧
    (st.step ≤ st.num_files → (runModal env props st evs).2.saveCalls ≠ [] →
      (runModal env props st evs).1.step = st.num_files ∧
      (runModal env props st evs).2.saveCalls = [normalizeBlendPath props.output_blend]) := by
  intro evs
  induction evs with
  | nil =>
    intro st
    refine ⟨le_refl _, rfl, rfl, fun hle => hle, by simp [runModal, Trace.empty], ?_⟩
    intro _ hne
    exact absurd rfl hne
  | cons e es ih =>
    intro st
    obtain ⟨m1, m2, m3, m4, m5, m6⟩ := modal_facts env props st e
    by_cases hfin : (modal env props st e).ret = ModalRet.FINISHED
    · have hrw : runModal env props st (e :: es) =
          ((modal env props st e).st, (modal env props st e).tr) := by
        simp [runModal, hfin]
      obtain ⟨f1, f2, f3⟩ := m6 hfin
      rw [hrw]
      dsimp only
      refine ⟨m1, m2, m3, m4, by simp [f3], fun hle _ => ⟨?_, f3⟩⟩
      omega
    · have hpass : (modal env props st e).ret = ModalRet.PASS_THROUGH := by
        cases hr : (modal env props st e).ret
        · rfl
        · exact absurd hr hfin
      have hrw : runModal env props st (e :: es) =
          ((runModal env props (modal env props st e).st es).1,
           ((modal env props st e).tr).append
             (runModal env props (modal env props st e).st es).2) := by
        simp [runModal, hfin]
      obtain ⟨g1, g2, g3, g4, g5, g6⟩ := ih (modal env props st e).st
      have hsv : (modal env props st e).tr.saveCalls = [] := m5 hpass
      rw [hrw]
      dsimp only
      refine ⟨m1.trans g1, g2.trans m2, g3.trans m3, fun hle => ?_, ?_, fun hle hne => ?_⟩
      · have := m4 hle
        have := g4 (by omega)
        omega
      · simpa [Trace.append, hsv] using g5
      · have hne' : (runModal env props (modal env props st e).st es).2.saveCalls ≠ [] := by
          simpa [Trace.append, hsv] using hne
        obtain ⟨e1, e2⟩ := g6 (by have := m4 hle; omega) hne'
        constructor
        · omega
        · simpa [Trace.append, hsv] using e2

theorem take_drop_cons (l : List String) (a b : Nat) (ha : a < l.length) (hab : a < b) :
    (l.take b).drop a = l.getD a "" :: (l.take b).drop (a + 1) := by
  have h1 : a < (l.take b).length := by
    simp only [List.length_take]
    omega
  rw [List.drop_eq_getElem_cons h1]
  congr 1
  rw [List.getElem_take]
  simp [List.getD_eq_getElem?_getD, List.getElem?_eq_getElem ha]

theorem runModal_loads (env : Env) (props : OpProps) : ∀ (evs : List Event) (st : JobState),
    st.num_files = st.image_files.length → st.step ≤ st.num_files →
    (runModal env props st evs).2.loadCalls =
      ((st.image_files.take (runModal env props st evs).1.step).drop st.step).map
        (pathJoin props.image_folder) := by
  intro evs
  induction evs with
  | nil =>
    intro st hnum hle
    have : (st.image_files.take st.step).drop st.step = [] := by
      apply List.drop_eq_nil_of_le
      simp only [List.length_take]
      omega
    simp [runModal, Trace.empty, this]
  | cons e es ih =>
    intro st hnum hle
    by_cases ht : e.ty = "TIMER"
    · by_cases h : st.step < st.num_files
      · have hmod := modal_timer_item env props st e ht h
        obtain ⟨p1, p2, p3, _, _, _⟩ :=
          processFile_fields env props st (st.image_files.getD st.step "")
        have hrw : runModal env props st (e :: es) =
            ((runModal env props
                (processFile env props st (st.image_files.getD st.step "")) es).1,
             (itemTrace env props (st.image_files.getD st.step "") st.step).append
               (runModal env props
                 (processFile env props st (st.image_files.getD st.step "")) es).2) := by
          simp [runModal, hmod]
        have hih := ih (processFile env props st (st.image_files.getD st.step ""))
          (by rw [p3, p2]; exact hnum)
          (by rw [p1, p3]; omega)
        obtain ⟨q1, _, _, _, _, _⟩ := runModal_facts env props es
          (processFile env props st (st.image_files.getD st.step ""))
        rw [p1] at q1
        rw [hrw]
        dsimp only
        rw [Trace.append]
        dsimp only
        rw [hih, p2, p1]
        rw [take_drop_cons st.image_files st.step
          (runModal env props
            (processFile env props st (st.image_files.getD st.step "")) es).1.step
          (by omega) (by omega)]
        simp [itemTrace, Trace.empty]
      · have hmod := modal_timer_save env props st e ht h
        have hrw : runModal env props st (e :: es) =
            ((modal env props st e).st, (modal env props st e).tr) := by
          simp [runModal, hmod]
        rw [hrw, hmod]
        dsimp only
        have : (st.image_files.take st.step).drop st.step = [] := by
          apply List.drop_eq_nil_of_le
          simp only [List.length_take]
          omega
        rw [this]
        rcases hs : env.saveResult (normalizeBlendPath props.output_blend) with e2 | u <;>
          simp [saveTrace, hs, Trace.empty]
    · have hmod := modal_not_timer env props st e ht
      have hrw : runModal env props st (e :: es) =
          ((runModal env props (modal env props st e).st es).1,
           ((modal env props st e).tr).append
             (runModal env props (modal env props st e).st es).2) := by
        simp [runModal, hmod]
      rw [hrw]
      dsimp only
      rw [hmod]
      dsimp only
      have hih := ih st hnum hle
      rw [Trace.append]
      dsimp only
      rw [show Trace.empty.loadCalls = [] from rfl, List.nil_append]
      have hrw2 : runModal env props (modal env props st e).st es = runModal env props st es := by
        rw [hmod]
      rw [← hrw2] at hih
      rw [hmod] at hih
      exact hih

theorem runModal_replicate_timer (env : Env) (props : OpProps) : ∀ (m : Nat) (st : JobState),
    st.num_files = st.image_files.length → st.step + m = st.num_files →
    (runModal env props st (List.replicate (m + 1) timerEvent)).1 =
      { runItems env props st ((st.image_files.drop st.step).take m) with done := true } ∧
    (runModal env props st (List.replicate (m + 1) timerEvent)).2 =
      Trace.append
        { Trace.empty with
            loadCalls :=
              ((st.image_files.drop st.step).take m).map (pathJoin props.image_folder),
            progressUpdates := List.range' (st.step + 1) m,
            reports := ((st.image_files.drop st.step).take m).filterMap (warnOf env props) }
        (saveTrace env props
          (runItems env props st ((st.image_files.drop st.step).take m))) := by
  intro m
  induction m with
  | zero =>
    intro st hnum hstep
    have h : ¬ st.step < st.num_files := by omega
    have hmod := modal_timer_save env props st timerEvent rfl h
    have hrw : runModal env props st (List.replicate 1 timerEvent) =
        ({ st with done := true }, saveTrace env props st) := by
      simp [List.replicate, runModal, hmod]
    rw [hrw]
    constructor
    · simp [runItems]
    · have hemp : ({ Trace.empty with
          loadCalls := (((st.image_files.drop st.step).take 0).map (pathJoin props.image_folder)),
          progressUpdates := List.range' (st.step + 1) 0,
          reports := ((st.image_files.drop st.step).take 0).filterMap (warnOf env props) } :
            Trace) = Trace.empty := by
        simp [Trace.empty]
      rw [hemp]
      dsimp only
      show saveTrace env props st =
        Trace.append Trace.empty (saveTrace env props (runItems env props st []))
      rcases hs : env.saveResult (normalizeBlendPath props.output_blend) with e2 | u <;>
        simp [Trace.append, Trace.empty, saveTrace, hs, runItems]
  | succ m ih =>
    intro st hnum hstep
    have h : st.step < st.num_files := by omega
    have hlen : st.step < st.image_files.length := by omega
    have hmod := modal_timer_item env props st timerEvent rfl h
    obtain ⟨p1, p2, p3, _, _, _⟩ :=
      processFile_fields env props st (st.image_files.getD st.step "")
    have hrw : runModal env props st (List.replicate (m + 1 + 1) timerEvent) =
        ((runModal env props
            (processFile env props st (st.image_files.getD st.step ""))
            (List.replicate (m + 1) timerEvent)).1,
         (itemTrace env props (st.image_files.getD st.step "") st.step).append
           (runModal env props
             (processFile env props st (st.image_files.getD st.step ""))
             (List.replicate (m + 1) timerEvent)).2) := by
      rw [List.replicate_succ]
      simp [runModal, hmod]
    obtain ⟨ih1, ih2⟩ := ih (processFile env props st (st.image_files.getD st.step ""))
      (by rw [p3, p2]; exact hnum) (by rw [p1, p3]; omega)
    have hslice : (st.image_files.drop st.step).take (m + 1) =
        st.image_files.getD st.step "" ::
          (st.image_files.drop (st.step + 1)).take m := by
      rw [List.drop_eq_getElem_cons hlen, List.take_succ_cons]
      congr 1
      simp [List.getD_eq_getElem?_getD, List.getElem?_eq_getElem hlen]
    have hitems : runItems env props st ((st.image_files.drop st.step).take (m + 1)) =
        runItems env props (processFile env props st (st.image_files.getD st.step ""))
          ((st.image_files.drop (st.step + 1)).take m) := by
      rw [hslice]
      rfl
    rw [hrw]
    dsimp only
    constructor
    · rw [ih1, p2, p1, hitems]
    · rw [ih2, p2, p1, hitems, hslice]
      rcases hw : warnOf env props (st.image_files.getD st.step "") with _ | w
      all_goals simp only [List.getD_eq_getElem?_getD] at hw
      all_goals simp [Trace.append, Trace.empty, itemTrace, hw, List.range'_succ]

theorem execute_st_some (env : Env) (props : OpProps) (st : JobState) :
    (execute env props).st = some st →
    st = { step := 0,
           image_files := (env.listdir props.image_folder).filter eligibleFile,
           num_files := ((env.listdir props.image_folder).filter eligibleFile).length,
           created_brushes := [], existing_brush_names := env.brushNames,
           done := false, failures := [] } ∧
    (env.listdir props.image_folder).filter eligibleFile ≠ [] := by
  intro hst
  by_cases h1 : env.isDir props.image_folder = false
  · simp [execute, h1] at hst
  · by_cases h2 : env.isDir (dirname props.output_blend) = false
    · simp [execute, h1, h2] at hst
    · by_cases h3 : ((env.listdir props.image_folder).filter eligibleFile).isEmpty = true
      · simp [execute, h1, h2, h3] at hst
      · simp [execute, h1, h2, h3] at hst
        refine ⟨hst.symm, ?_⟩
        intro hnil
        rw [hnil] at h3
        simp at h3

theorem pyLower_append (a b : String) : pyLower (a ++ b) = pyLower a ++ pyLower b := by
  apply String.ext
  simp [pyLower, String.data_append]

theorem pyEndsWith_iff (s t : String) :
    pyEndsWith s t = true ↔ t.data <:+ s.data := by
  simp [pyEndsWith]

/-- C3: each pre-flight validation failure — image folder not a directory,
output path's parent not a directory, or empty eligible file set — makes
`execute` cancel with exactly the corresponding error report and no side
effects: no job state (hence no records), no timer, and no progress UI. -/
theorem C3_preflight_aborts_without_side_effects (env : Env) (props : OpProps) :
    (env.isDir props.image_folder = false →
      execute env props =
        { ret := ExecRet.CANCELLED,
          reports := [Report.error "Invalid image folder path."],
          progressBegun := false, timerAdded := false, st := none }) ∧
    (env.isDir props.image_folder = true →
      env.isDir (dirname props.output_blend) = false →
      execute env props =
        { ret := ExecRet.CANCELLED,
          reports := [Report.error "Invalid output blend folder."],
          progressBegun := false, timerAdded := false, st := none }) ∧
    (env.isDir props.image_folder = true →
      env.isDir (dirname props.output_blend) = true →
      (env.listdir props.image_folder).filter eligibleFile = [] →
      execute env props =
        { ret := ExecRet.CANCELLED,
          reports := [Report.error "No image files found in the selected folder."],
          progressBegun := false, timerAdded := false, st := none }) := by
  refine ⟨fun h1 => ?_, fun h1 h2 => ?_, fun h1 h2 h3 => ?_⟩
  · simp [execute, h1]
  · simp [execute, h1, h2]
  · simp [execute, h1, h2, h3]

theorem C3_witness :
    execute
      ⟨fun _ => false, fun _ => [], [], fun _ => Except.ok (), fun _ => Except.ok ()⟩
      ⟨"/imgs", "/out/lib.blend"⟩ =
      ⟨ExecRet.CANCELLED, [Report.error "Invalid image folder path."], false, false, none⟩ :=
  (C3_preflight_aborts_without_side_effects
    ⟨fun _ => false, fun _ => [], [], fun _ => Except.ok (), fun _ => Except.ok ()⟩
    ⟨"/imgs", "/out/lib.blend"⟩).1 rfl

/-- C4: `make_unique_name base reserved` returns `base` itself when `base`
is unreserved, otherwise the first `base_<k>` (k = 1, 2, 3, …) that is
unreserved; the result is never a member of `reserved`, and a further call
against any reserved set grown with the returned name cannot collide with
it. -/
theorem C4_allocator_returns_fresh_name (base : String) (reserved : List String) :
    (base ∉ reserved → make_unique_name base reserved = base) ∧
    (base ∈ reserved → ∃ k, 1 ≤ k ∧
      make_unique_name base reserved = base ++ "_" ++ natToDec k ∧
      base ++ "_" ++ natToDec k ∉ reserved ∧
      ∀ m, 1 ≤ m → m < k → base ++ "_" ++ natToDec m ∈ reserved) ∧
    make_unique_name base reserved ∉ reserved ∧
    ∀ base2 : String,
      make_unique_name base2 (make_unique_name base reserved :: reserved) ≠
        make_unique_name base reserved := by
  obtain ⟨j, h1, h2, h3⟩ := make_unique_name_eq_first_free base reserved
  refine ⟨?_, ?_, h1 ▸ h2, ?_⟩
  · intro hb
    rcases Nat.eq_zero_or_pos j with hj | hj
    · rw [hj] at h1
      simpa [candidate] using h1
    · exact absurd (by simpa [candidate] using h3 0 hj) hb
  · intro hb
    rcases Nat.eq_zero_or_pos j with hj | hj
    · rw [hj] at h2
      simp [candidate] at h2
      exact absurd hb h2
    · have hjne : j ≠ 0 := by omega
      refine ⟨j, hj, ?_, ?_, ?_⟩
      · rw [h1]
        simp [candidate, hjne]
      · simpa [candidate, hjne] using h2
      · intro m hm1 hm2
        have hmne : m ≠ 0 := by omega
        simpa [candidate, hmne] using h3 m hm2
  · intro base2 heq
    apply make_unique_name_not_mem base2 (make_unique_name base reserved :: reserved)
    rw [heq]
    exact List.mem_cons_self _ _

theorem C4_witness :
    make_unique_name "b_Brush" ["a_Brush"] = "b_Brush" ∧
    make_unique_name "b_Brush" ["a_Brush"] ∉ (["a_Brush"] : List String) ∧
    (∃ k, 1 ≤ k ∧
      make_unique_name "a_Brush" ["a_Brush"] = "a_Brush" ++ "_" ++ natToDec k ∧
      "a_Brush" ++ "_" ++ natToDec k ∉ (["a_Brush"] : List String) ∧
      ∀ m, 1 ≤ m → m < k → "a_Brush" ++ "_" ++ natToDec m ∈ (["a_Brush"] : List String)) :=
  ⟨(C4_allocator_returns_fresh_name "b_Brush" ["a_Brush"]).1 (by decide),
   (C4_allocator_returns_fresh_name "b_Brush" ["a_Brush"]).2.2.1,
   (C4_allocator_returns_fresh_name "a_Brush" ["a_Brush"]).2.1 (by decide)⟩

/-- C9: the allocator's search loop always terminates: for every base name
and finite reserved list it exits within `reserved.length` guard failures,
returning some candidate that is not reserved; there is no error case. -/
theorem C9_allocator_terminates (base : String) (reserved : List String) :
    ∃ k, k ≤ reserved.length ∧ make_unique_name base reserved = candidate base k ∧
      candidate base k ∉ reserved := by
  obtain ⟨j0, hj0, hfree⟩ := exists_free_candidate base reserved
  obtain ⟨j, _, h2, h3, h4⟩ := mkUniqueAux_spec base reserved (reserved.length + 1) 0
    ⟨j0, Nat.zero_le _, by omega, hfree⟩
  have hle : j ≤ j0 := by
    by_contra hlt
    push_neg at hlt
    exact hfree (h4 j0 (Nat.zero_le _) hlt)
  exact ⟨j, by omega, h2, h3⟩

/-- C10: because eligibility is a case-insensitive suffix test on the whole
entry name, an entry whose entire name equals an allow-listed suffix (such
as the dotfile `".png"`) is classified as eligible. -/
theorem C10_bare_extension_dotfile_is_eligible :
    ∀ ext ∈ IMAGE_EXTENSIONS, eligibleFile ext = true := by
  decide

theorem C10_witness : eligibleFile ".png" = true :=
  C10_bare_extension_dotfile_is_eligible ".png" (by decide)

theorem IMAGE_EXTENSIONS_eq_map :
    IMAGE_EXTENSIONS =
      (["png", "jpg", "jpeg", "tif", "tiff", "bmp", "psd", "exr", "hdr",
        "tga", "gif", "dds", "jp2", "webp"] : List String).map (fun e => "." ++ e) := by
  decide

/-- C5: the eligibility scan keeps exactly the directory entries whose
lowercased name ends in a dot followed by one of the fourteen allow-listed
extensions, and the kept entries form a sublist of the listing, i.e. the
host's listing order is preserved; the job's eligible file set is exactly
this filtered listing. -/
theorem C5_scan_is_ordered_allowlist_filter (env : Env) (props : OpProps)
    (st : JobState) (entries : List String) :
    (entries.filter eligibleFile).Sublist entries ∧
    (∀ f, f ∈ entries.filter eligibleFile ↔
      f ∈ entries ∧ ∃ ext ∈ (["png", "jpg", "jpeg", "tif", "tiff", "bmp", "psd", "exr",
        "hdr", "tga", "gif", "dds", "jp2", "webp"] : List String),
        pyEndsWith (pyLower f) ("." ++ ext) = true) ∧
    ((execute env props).st = some st →
      st.image_files = (env.listdir props.image_folder).filter eligibleFile) := by
  refine ⟨List.filter_sublist entries, ?_, ?_⟩
  · intro f
    rw [List.mem_filter]
    refine and_congr_right fun _ => ?_
    simp [eligibleFile, List.any_eq_true, IMAGE_EXTENSIONS_eq_map]
  · intro hex
    obtain ⟨hst, _⟩ := execute_st_some env props st hex
    rw [hst]

theorem C5_witness :
    "a.PNG" ∈ (["a.PNG", "notes.txt"].filter eligibleFile) ∧
    "notes.txt" ∉ (["a.PNG", "notes.txt"].filter eligibleFile) := by
  have h := C5_scan_is_ordered_allowlist_filter
    ⟨fun _ => true, fun _ => [], [], fun _ => Except.ok (), fun _ => Except.ok ()⟩
    ⟨"/i", "/o"⟩ ⟨0, [], 0, [], [], false, []⟩ ["a.PNG", "notes.txt"]
  constructor
  · exact (h.2.1 "a.PNG").mpr ⟨by decide, ⟨"png", by decide, by decide⟩⟩
  · intro hm
    exact absurd ((h.2.1 "notes.txt").mp hm).2 (by decide)

/-- C8: every event whose kind is not the operator's `'TIMER'` tick is a
pure pass-through: the handler returns `PASS_THROUGH`, performs no host
calls, and leaves every job-state field unchanged. -/
theorem C8_non_timer_tick_is_noop (env : Env) (props : OpProps) (st : JobState) (e : Event)
    (h : e.ty ≠ "TIMER") :
    modal env props st e = ⟨st, ModalRet.PASS_THROUGH, Trace.empty⟩ :=
  modal_not_timer env props st e h

theorem C8_witness :
    modal ⟨fun _ => true, fun _ => [], [], fun _ => Except.ok (), fun _ => Except.ok ()⟩
      ⟨"/i", "/o"⟩ ⟨0, ["a.png"], 1, [], [], false, []⟩ ⟨"MOUSEMOVE"⟩ =
      ⟨⟨0, ["a.png"], 1, [], [], false, []⟩, ModalRet.PASS_THROUGH, Trace.empty⟩ :=
  C8_non_timer_tick_is_noop _ _ _ _ (by decide)

theorem normalizeBlendPath_endsWith (p : String) :
    pyEndsWith (pyLower (normalizeBlendPath p)) ".blend" = true := by
  unfold normalizeBlendPath
  by_cases h : pyEndsWith (pyLower p) ".blend" = true
  · rw [if_pos h]
    exact h
  · rw [if_neg h, pyLower_append]
    have h2 : pyLower ".blend" = ".blend" := by decide
    rw [h2, pyEndsWith_iff, String.data_append]
    exact List.suffix_append _ _

/-- C6: the path handed to the save call always carries the `.blend`
suffix: the suffix is appended exactly when the configured output path does
not already end in `.blend` case-insensitively, a path that already has it
passes through unchanged, and a full job run performs exactly one save
call, with that normalized path. -/
theorem C6_single_save_with_normalized_path (env : Env) (props : OpProps) (st : JobState) :
    (pyEndsWith (pyLower props.output_blend) ".blend" = true →
      normalizeBlendPath props.output_blend = props.output_blend) ∧
    (pyEndsWith (pyLower props.output_blend) ".blend" = false →
      normalizeBlendPath props.output_blend = props.output_blend ++ ".blend") ∧
    pyEndsWith (pyLower (normalizeBlendPath props.output_blend)) ".blend" = true ∧
    ((execute env props).st = some st →
      (runModal env props st (List.replicate (st.num_files + 1) timerEvent)).2.saveCalls =
        [normalizeBlendPath props.output_blend]) := by
  refine ⟨fun h => by simp [normalizeBlendPath, h], fun h => by simp [normalizeBlendPath, h],
    normalizeBlendPath_endsWith props.output_blend, fun hex => ?_⟩
  obtain ⟨hst, hne⟩ := execute_st_some env props st hex
  have h0 : st.step = 0 := by rw [hst]
  have hnum : st.num_files = st.image_files.length := by rw [hst]
  obtain ⟨_, h2⟩ := runModal_replicate_timer env props st.num_files st hnum (by omega)
  rw [h2]
  rcases hs : env.saveResult (normalizeBlendPath props.output_blend) with e2 | u <;>
    simp [Trace.append, Trace.empty, saveTrace, hs]

theorem C6_witness :
    normalizeBlendPath "/o/out" = "/o/out" ++ ".blend" ∧
    (runModal ⟨fun _ => true, fun _ => ["a.png"], [], fun _ => Except.ok (), fun _ => Except.ok ()⟩
        ⟨"/i", "/o/out"⟩ ⟨0, ["a.png"], 1, [], [], false, []⟩
        (List.replicate 2 timerEvent)).2.saveCalls = [normalizeBlendPath "/o/out"] :=
  ⟨(C6_single_save_with_normalized_path
      ⟨fun _ => true, fun _ => ["a.png"], [], fun _ => Except.ok (), fun _ => Except.ok ()⟩
      ⟨"/i", "/o/out"⟩ ⟨0, ["a.png"], 1, [], [], false, []⟩).2.1 (by decide),
   (C6_single_save_with_normalized_path
      ⟨fun _ => true, fun _ => ["a.png"], [], fun _ => Except.ok (), fun _ => Except.ok ()⟩
      ⟨"/i", "/o/out"⟩ ⟨0, ["a.png"], 1, [], [], false, []⟩).2.2.2 (by decide)⟩

theorem modal_save_iff (env : Env) (props : OpProps) (st : JobState) (e : Event)
    (hle : st.step ≤ st.num_files) :
    (modal env props st e).tr.saveCalls ≠ [] ↔
      (e.ty = "TIMER" ∧ st.step = st.num_files) := by
  by_cases ht : e.ty = "TIMER"
  · by_cases h : st.step < st.num_files
    · rw [modal_timer_item env props st e ht h]
      simp [itemTrace, Trace.empty, ht]
      omega
    · rw [modal_timer_save env props st e ht h]
      dsimp only
      have heq : st.step = st.num_files := by omega
      rcases hs : env.saveResult (normalizeBlendPath props.output_blend) with e2 | u
      all_goals simp [saveTrace, hs, Trace.empty, ht, heq]
  · rw [modal_not_timer env props st e ht]
    simp [Trace.empty, ht]

/-- C1: for a job started by a successful `execute` (non-empty eligible
set), the cursor never decreases at any tick and never exceeds the total;
a tick performs the save exactly when it is the designated timer tick and
the cursor equals the total; any run performs at most one save; the load
calls of any run are exactly the files before the final cursor, in the
listing's order; a save implies every file was already processed, in
order; and the full run of total+1 timer ticks performs exactly one
save. -/
theorem C1_cursor_invariants_and_single_save (env : Env) (props : OpProps) (st0 : JobState)
    (hex : (execute env props).st = some st0) :
    st0.image_files ≠ [] ∧
    (∀ (st : JobState) (e : Event), st.step ≤ (modal env props st e).st.step) ∧
    (∀ (st : JobState) (e : Event), st.step ≤ st.num_files →
      (modal env props st e).st.step ≤ st.num_files) ∧
    (∀ (st : JobState) (e : Event), st.step ≤ st.num_files →
      ((modal env props st e).tr.saveCalls ≠ [] ↔
        (e.ty = "TIMER" ∧ st.step = st.num_files))) ∧
    (∀ evs : List Event, (runModal env props st0 evs).2.saveCalls.length ≤ 1) ∧
    (∀ evs : List Event,
      (runModal env props st0 evs).2.loadCalls =
        (st0.image_files.take (runModal env props st0 evs).1.step).map
          (pathJoin props.image_folder)) ∧
    (∀ evs : List Event, (runModal env props st0 evs).2.saveCalls ≠ [] →
      (runModal env props st0 evs).1.step = st0.num_files ∧
      (runModal env props st0 evs).2.loadCalls =
        st0.image_files.map (pathJoin props.image_folder)) ∧
    (runModal env props st0
      (List.replicate (st0.num_files + 1) timerEvent)).2.saveCalls.length = 1 := by
  obtain ⟨hst, hne⟩ := execute_st_some env props st0 hex
  have h0 : st0.step = 0 := by rw [hst]
  have hnum : st0.num_files = st0.image_files.length := by rw [hst]
  have hfne : st0.image_files ≠ [] := by rw [hst]; exact hne
  have hloads : ∀ evs : List Event,
      (runModal env props st0 evs).2.loadCalls =
        (st0.image_files.take (runModal env props st0 evs).1.step).map
          (pathJoin props.image_folder) := by
    intro evs
    have := runModal_loads env props evs st0 hnum (by omega)
    rw [h0, List.drop_zero] at this
    exact this
  refine ⟨hfne,
    fun st e => (modal_facts env props st e).1,
    fun st e h => (modal_facts env props st e).2.2.2.1 h,
    fun st e h => modal_save_iff env props st e h,
    fun evs => (runModal_facts env props evs st0).2.2.2.2.1,
    hloads, fun evs hne' => ?_, ?_⟩
  · obtain ⟨hstep, _⟩ :=
      (runModal_facts env props evs st0).2.2.2.2.2 (by omega) hne'
    refine ⟨hstep, ?_⟩
    rw [hloads evs, hstep, hnum, List.take_length]
  · obtain ⟨_, h2⟩ := runModal_replicate_timer env props st0.num_files st0 hnum (by omega)
    rw [h2]
    rcases hs : env.saveResult (normalizeBlendPath props.output_blend) with e2 | u
    all_goals simp [Trace.append, Trace.empty, saveTrace, hs]

theorem C1_witness :
    (["a.png"] : List String) ≠ [] ∧
    (runModal ⟨fun _ => true, fun _ => ["a.png"], [], fun _ => Except.ok (), fun _ => Except.ok ()⟩
        ⟨"/i", "/o/out"⟩ ⟨0, ["a.png"], 1, [], [], false, []⟩
        (List.replicate 2 timerEvent)).2.saveCalls.length = 1 :=
  ⟨(C1_cursor_invariants_and_single_save
      ⟨fun _ => true, fun _ => ["a.png"], [], fun _ => Except.ok (), fun _ => Except.ok ()⟩
      ⟨"/i", "/o/out"⟩ ⟨0, ["a.png"], 1, [], [], false, []⟩ (by decide)).1,
   (C1_cursor_invariants_and_single_save
      ⟨fun _ => true, fun _ => ["a.png"], [], fun _ => Except.ok (), fun _ => Except.ok ()⟩
      ⟨"/i", "/o/out"⟩ ⟨0, ["a.png"], 1, [], [], false, []⟩ (by decide)).2.2.2.2.2.2.2⟩

theorem filter_all_good {α : Type} (p : α → Bool) (d : α) :
    ∀ l : List α, (∀ i, i < l.length → p (l.getD i d) = true) →
      l.filter (fun x => ! p x) = [] ∧ (l.filter p).length = l.length := by
  intro l
  induction l with
  | nil => intro _; simp
  | cons x t ih =>
    intro hall
    have hx : p x = true := by
      have := hall 0 (by simp)
      simpa using this
    have ht : ∀ i, i < t.length → p (t.getD i d) = true := by
      intro i hi
      have := hall (i + 1) (by simp; omega)
      simpa using this
    obtain ⟨ih1, ih2⟩ := ih ht
    constructor
    · simp [List.filter_cons, hx, ih1]
    · simp [List.filter_cons, hx, ih2]

theorem filter_single_bad {α : Type} (p : α → Bool) (d : α) :
    ∀ (l : List α) (k : Nat), k < l.length →
      (∀ j, j < l.length → j ≠ k → p (l.getD j d) = true) →
      p (l.getD k d) = false →
      l.filter (fun x => ! p x) = [l.getD k d] ∧
        (l.filter p).length = l.length - 1 := by
  intro l
  induction l with
  | nil => intro k hk; simp at hk
  | cons x t ih =>
    intro k hk hgood hbad
    match k with
    | 0 =>
      have hx : p x = false := by simpa using hbad
      have ht : ∀ i, i < t.length → p (t.getD i d) = true := by
        intro i hi
        have := hgood (i + 1) (by simp; omega) (by omega)
        simpa using this
      obtain ⟨h1, h2⟩ := filter_all_good p d t ht
      constructor
      · simp [List.filter_cons, hx, h1]
      · simp [List.filter_cons, hx, h2]
    | k' + 1 =>
      have hx : p x = true := by
        have := hgood 0 (by simp) (by omega)
        simpa using this
      have hk' : k' < t.length := by simpa using hk
      have hgood' : ∀ j, j < t.length → j ≠ k' → p (t.getD j d) = true := by
        intro j hj hjk
        have := hgood (j + 1) (by simp; omega) (by omega)
        simpa using this
      have hbad' : p (t.getD k' d) = false := by simpa using hbad
      obtain ⟨h1, h2⟩ := ih k' hk' hgood' hbad'
      constructor
      · simpa [List.filter_cons, hx] using h1
      · simp [List.filter_cons, hx, h2]
        omega

theorem getD_mem {α : Type} (l : List α) (k : Nat) (d : α) (hk : k < l.length) :
    l.getD k d ∈ l := by
  rw [List.getD_eq_getElem?_getD, List.getElem?_eq_getElem hk]
  exact List.getElem_mem hk

/-- C2: when the conversion of exactly the file at position `k` (of `n`)
fails with error text `msg` and every other file converts, the error is
caught: the full run still finishes, the cursor ends at `n` having advanced
by exactly one per item tick, every file's path is passed to the loader
exactly once (no retry), the failure list holds exactly that one filename,
`n - 1` brush records are produced, the save tick is still reached, and a
warning report carrying the filename and the error description was
emitted. -/
theorem C2_item_failure_is_isolated (env : Env) (props : OpProps) (st0 : JobState)
    (hex : (execute env props).st = some st0) (k : Nat) (msg : String)
    (hk : k < st0.num_files)
    (hfail : env.loadResult
      (pathJoin props.image_folder (st0.image_files.getD k "")) = Except.error msg)
    (hok : ∀ j, j < st0.num_files → j ≠ k →
      env.loadResult
        (pathJoin props.image_folder (st0.image_files.getD j "")) = Except.ok ()) :
    (runModal env props st0
      (List.replicate (st0.num_files + 1) timerEvent)).1.step = st0.num_files ∧
    (runModal env props st0
      (List.replicate (st0.num_files + 1) timerEvent)).2.loadCalls =
        st0.image_files.map (pathJoin props.image_folder) ∧
    (runModal env props st0
      (List.replicate (st0.num_files + 1) timerEvent)).1.failures =
        [st0.image_files.getD k ""] ∧
    (runModal env props st0
      (List.replicate (st0.num_files + 1) timerEvent)).1.created_brushes.length =
        st0.num_files - 1 ∧
    (runModal env props st0
      (List.replicate (st0.num_files + 1) timerEvent)).2.saveCalls =
        [normalizeBlendPath props.output_blend] ∧
    Report.warning ("Failed to load " ++ st0.image_files.getD k "" ++ ": " ++ msg) ∈
      (runModal env props st0
        (List.replicate (st0.num_files + 1) timerEvent)).2.reports ∧
    (∀ (st : JobState) (e : Event), e.ty = "TIMER" → st.step < st.num_files →
      (modal env props st e).st.step = st.step + 1) := by
  obtain ⟨hst, hne⟩ := execute_st_some env props st0 hex
  have h0 : st0.step = 0 := by rw [hst]
  have hnum : st0.num_files = st0.image_files.length := by rw [hst]
  have hcre : st0.created_brushes = [] := by rw [hst]
  have hfl : st0.failures = [] := by rw [hst]
  have hklen : k < st0.image_files.length := by omega
  obtain ⟨h1, h2⟩ := runModal_replicate_timer env props st0.num_files st0 hnum (by omega)
  have hslice : (st0.image_files.drop st0.step).take st0.num_files = st0.image_files := by
    rw [h0, List.drop_zero, hnum, List.take_length]
  rw [hslice] at h1 h2
  obtain ⟨r1, _, _, _, r5, r6⟩ := runItems_fields env props st0.image_files st0
  have hokval : okFile env props (st0.image_files.getD k "") = false := by
    unfold okFile
    rw [hfail]
  have hgood : ∀ j, j < st0.image_files.length → j ≠ k →
      okFile env props (st0.image_files.getD j "") = true := by
    intro j hj hjk
    unfold okFile
    rw [hok j (by omega) hjk]
  obtain ⟨hf1, hf2⟩ := filter_single_bad (okFile env props) "" st0.image_files k hklen
    (fun j hj hjk => hgood j hj hjk) hokval
  refine ⟨?_, ?_, ?_, ?_, ?_, ?_, ?_⟩
  · rw [h1]
    dsimp only
    omega
  · rw [h2]
    simp [Trace.append]
    rcases hs : env.saveResult (normalizeBlendPath props.output_blend) with e2 | u
    all_goals simp [saveTrace, hs, Trace.empty]
  · rw [h1]
    dsimp only
    rw [r6, hfl, hf1]
    simp
  · rw [h1]
    dsimp only
    rw [r5, hcre, hf2]
    simp
    omega
  · rw [h2]
    rcases hs : env.saveResult (normalizeBlendPath props.output_blend) with e2 | u
    all_goals simp [Trace.append, Trace.empty, saveTrace, hs]
  · rw [h2]
    dsimp only [Trace.append]
    apply List.mem_append_left
    apply List.mem_filterMap.mpr
    refine ⟨st0.image_files.getD k "", getD_mem _ _ _ hklen, ?_⟩
    unfold warnOf
    rw [hfail]
  · intro st e ht hlt
    rw [modal_timer_item env props st e ht hlt]
    dsimp only
    exact (processFile_fields env props st (st.image_files.getD st.step "")).1

theorem C2_witness :
    (runModal
        ⟨fun _ => true, fun _ => ["a.png", "b.JPG"], [],
         fun p => if p = "/i/b.JPG" then Except.error "boom" else Except.ok (),
         fun _ => Except.ok ()⟩
        ⟨"/i", "/o/out"⟩ ⟨0, ["a.png", "b.JPG"], 2, [], [], false, []⟩
        (List.replicate 3 timerEvent)).1.failures = ["b.JPG"] ∧
    (runModal
        ⟨fun _ => true, fun _ => ["a.png", "b.JPG"], [],
         fun p => if p = "/i/b.JPG" then Except.error "boom" else Except.ok (),
         fun _ => Except.ok ()⟩
        ⟨"/i", "/o/out"⟩ ⟨0, ["a.png", "b.JPG"], 2, [], [], false, []⟩
        (List.replicate 3 timerEvent)).1.created_brushes.length = 1 := by
  have h := C2_item_failure_is_isolated
    ⟨fun _ => true, fun _ => ["a.png", "b.JPG"], [],
     fun p => if p = "/i/b.JPG" then Except.error "boom" else Except.ok (),
     fun _ => Except.ok ()⟩
    ⟨"/i", "/o/out"⟩ ⟨0, ["a.png", "b.JPG"], 2, [], [], false, []⟩
    (by decide) 1 "boom" (by decide) (by rfl)
    (by
      intro j hj hjk
      have hj2 : j < 2 := hj
      interval_cases j
      · rfl
      · exact absurd rfl hjk)
  exact ⟨h.2.2.1, h.2.2.2.1⟩

/-- C7 (amended): when the terminal aggregate persist fails, the error is
surfaced immediately at the saving tick as the single error report
`"Failed to save blend: <e>"`, and the handler then finishes exactly as on
a successful save — same `FINISHED` return, done flag set, timer removed,
progress ended; the code has no distinct aborted terminal state for this
case and the error report does not mention the successful conversions. -/
theorem C7_save_failure_same_terminal_result (env : Env) (props : OpProps) (st : JobState)
    (msg : String) (hstep : ¬ st.step < st.num_files)
    (hsave : env.saveResult (normalizeBlendPath props.output_blend) = Except.error msg) :
    modal env props st timerEvent =
      ⟨{ st with done := true }, ModalRet.FINISHED,
       { Trace.empty with
           saveCalls := [normalizeBlendPath props.output_blend],
           reports := [Report.error ("Failed to save blend: " ++ msg)],
           progressEnded := true, timerRemoved := true }⟩ ∧
    ∀ env2 : Env, env2.saveResult (normalizeBlendPath props.output_blend) = Except.ok () →
      (modal env2 props st timerEvent).ret = (modal env props st timerEvent).ret := by
  have hmod := modal_timer_save env props st timerEvent rfl hstep
  constructor
  · rw [hmod]
    simp [saveTrace, hsave, Trace.empty]
  · intro env2 hs2
    have hmod2 := modal_timer_save env2 props st timerEvent rfl hstep
    rw [hmod, hmod2]

theorem C7_witness :
    modal
      ⟨fun _ => true, fun _ => ["a.png"], [], fun _ => Except.ok (),
       fun _ => Except.error "boom"⟩
      ⟨"/i", "/o/out"⟩ ⟨1, ["a.png"], 1, ["a_Brush"], ["a_Brush"], false, []⟩
      timerEvent =
      ⟨⟨1, ["a.png"], 1, ["a_Brush"], ["a_Brush"], true, []⟩, ModalRet.FINISHED,
       ⟨[Report.error "Failed to save blend: boom"], [], [],
        [normalizeBlendPath "/o/out"], true, true⟩⟩ :=
  (C7_save_failure_same_terminal_result
    ⟨fun _ => true, fun _ => ["a.png"], [], fun _ => Except.ok (),
     fun _ => Except.error "boom"⟩
    ⟨"/i", "/o/out"⟩ ⟨1, ["a.png"], 1, ["a_Brush"], ["a_Brush"], false, []⟩
    "boom" (by decide) rfl).1

/-- C7 counterexample: with one record produced and the save failing, the
handler terminates with the same `FINISHED` result as when the save
succeeds — the run has no distinct aborted terminal state — and the only
report emitted is the bare save error, with no partial-success summary of
the completed conversions. -/
theorem C7_counterexample :
    (modal
        ⟨fun _ => true, fun _ => ["a.png"], [], fun _ => Except.ok (),
         fun _ => Except.error "boom"⟩
        ⟨"/i", "/o/out"⟩ ⟨1, ["a.png"], 1, ["a_Brush"], ["a_Brush"], false, []⟩
        timerEvent).ret =
      (modal
        ⟨fun _ => true, fun _ => ["a.png"], [], fun _ => Except.ok (),
         fun _ => Except.ok ()⟩
        ⟨"/i", "/o/out"⟩ ⟨1, ["a.png"], 1, ["a_Brush"], ["a_Brush"], false, []⟩
        timerEvent).ret ∧
    (modal
        ⟨fun _ => true, fun _ => ["a.png"], [], fun _ => Except.ok (),
         fun _ => Except.error "boom"⟩
        ⟨"/i", "/o/out"⟩ ⟨1, ["a.png"], 1, ["a_Brush"], ["a_Brush"], false, []⟩
        timerEvent).tr.reports = [Report.error "Failed to save blend: boom"] ∧
    (modal
        ⟨fun _ => true, fun _ => ["a.png"], [], fun _ => Except.ok (),
         fun _ => Except.error "boom"⟩
        ⟨"/i", "/o/out"⟩ ⟨1, ["a.png"], 1, ["a_Brush"], ["a_Brush"], false, []⟩
        timerEvent).st.done = true := by
  decide

